import Mathlib

/-!
# Verification of the circle-detection pipeline (`circle_detector.py`)

Shallow embedding of `CircleDetector` from `src/circle_detector.py`:

* `detect_circles`  — orchestration of image read, grayscale conversion,
  median blur and the Hough circle search, with external OpenCV primitives
  (`cv.cvtColor`, `cv.medianBlur`, `cv.HoughCircles`) passed in as function
  parameters, since they are library calls and not code of this repository.
* `draw_circles`    — annotation on a copy of the original image, with the
  OpenCV drawing primitives abstracted as a per-circle drawing function.
* `extract_circles` — per-circle masked crop: the disc mask, the clamped
  bounding box, numpy slicing and `cv.bitwise_and` are modelled concretely.
* `get_circle_info` — radius statistics (count / mean / min / max /
  population variance, with `np.std` the square root of the variance field).

Images are total functions from positions to pixel values together with
explicit height and width; machine `uint8` pixels are `Nat` (the bitwise
AND used by extraction is value-level and independent of the 8-bit bound).
-/

namespace CircleDetect

/-- A BGR colour pixel: three `uint8` channels modelled as naturals. -/
abbrev Pix := Nat × Nat × Nat

/-- A colour image: height, width, and a total pixel function `pix row col`. -/
structure Image where
  h : Nat
  w : Nat
  pix : Nat → Nat → Pix

/-- A single-channel (grayscale / mask) image. -/
structure GrayImage where
  h : Nat
  w : Nat
  pix : Nat → Nat → Nat

/-- A detected circle as stored after rounding: integer `(x, y, r)`. -/
abbrev Circle := Int × Int × Int

/-- Python slice semantics for one axis of length `n`: an index `i` used as a
slice endpoint is shifted by `n` when negative, then clamped to `[0, n]`.
This is the normalisation CPython applies in `slice.indices`. -/
def sliceIdx (n : Nat) (i : Int) : Nat :=
  (min (n : Int) (max 0 (if i < 0 then i + n else i))).toNat

/-- Model of `np.zeros(image.shape[:2])` followed by `cv.circle(mask, (x, y), r, 255, -1)`
from `extract_circles` (circle_detector.py lines 134-135): a full-image-sized
binary mask holding a filled disc of radius `r` centred at `(x, y)`.  The
OpenCV filled-circle rasterisation is modelled as the Euclidean disc
`(i-x)^2 + (j-y)^2 <= r^2` (callers only ever pass `r >= 0`; OpenCV rejects a
negative radius). -/
def mkMask (h w : Nat) (x y r : Int) : GrayImage :=
  ⟨h, w, fun j i =>
    if ((i : Int) - x) ^ 2 + ((j : Int) - y) ^ 2 ≤ r ^ 2 then 255 else 0⟩

/-- The clamped crop bounds of `extract_circles` (lines 138-141):
`x1 = max(0, x - r)`, `y1 = max(0, y - r)`, `x2 = min(width, x + r)`,
`y2 = min(height, y + r)`, returned as `(x1, y1, x2, y2)`. -/
def cropBounds (h w : Nat) (x y r : Int) : Int × Int × Int × Int :=
  (max 0 (x - r), max 0 (y - r), min (w : Int) (x + r), min (h : Int) (y + r))

/-- Model of `image[y1:y2, x1:x2]` on a colour image (line 144): numpy slicing with
Python slice-endpoint normalisation on each axis. -/
def cropImage (img : Image) (y1 y2 x1 x2 : Int) : Image :=
  let ys := sliceIdx img.h y1
  let ye := sliceIdx img.h y2
  let xs := sliceIdx img.w x1
  let xe := sliceIdx img.w x2
  ⟨ye - ys, xe - xs, fun j i => img.pix (ys + j) (xs + i)⟩

/-- Model of `mask[y1:y2, x1:x2]` on the single-channel mask (line 145). -/
def cropGray (img : GrayImage) (y1 y2 x1 x2 : Int) : GrayImage :=
  let ys := sliceIdx img.h y1
  let ye := sliceIdx img.h y2
  let xs := sliceIdx img.w x1
  let xe := sliceIdx img.w x2
  ⟨ye - ys, xe - xs, fun j i => img.pix (ys + j) (xs + i)⟩

/-- Model of `cv.bitwise_and(src1, src2, mask=m)` (line 148): the destination starts
as zeros and receives the channel-wise bitwise AND of the sources exactly at
positions where the mask is non-zero. -/
def bitwiseAnd (a b : Image) (m : GrayImage) : Image :=
  ⟨a.h, a.w, fun j i =>
    if m.pix j i ≠ 0 then
      ((a.pix j i).1 &&& (b.pix j i).1,
       (a.pix j i).2.1 &&& (b.pix j i).2.1,
       (a.pix j i).2.2 &&& (b.pix j i).2.2)
    else (0, 0, 0)⟩

/-- The body of the `for` loop of `extract_circles` (lines 132-148) for one
circle `(x, y, r)`: build the disc mask, clamp the bounding box, crop image
and mask to it, and combine with `cv.bitwise_and(cropped, cropped, mask)`. -/
def extractOne (img : Image) (c : Circle) : Image :=
  let x := c.1
  let y := c.2.1
  let r := c.2.2
  let mask := mkMask img.h img.w x y r
  let b := cropBounds img.h img.w x y r
  let cropped := cropImage img b.2.1 b.2.2.2 b.1 b.2.2.1
  let maskCropped := cropGray mask b.2.1 b.2.2.2 b.1 b.2.2.1
  bitwiseAnd cropped cropped maskCropped

/-- Embedding of `CircleDetector.extract_circles` (lines 110-156), as the pure in-memory
operation: one masked crop per circle, in sequence order.  (The reference
additionally writes each result to disk; persistence is the I/O
collaborator's concern and is not part of the value computed.) -/
def extract_circles (img : Image) (circles : List Circle) : List Image :=
  circles.map (extractOne img)

/-! ## Detector (`detect_circles`, lines 28-73) -/

/-- The error kinds a `detect` call can surface.  The code itself raises only
`ValueError("Cannot read image ...")` — the `InvalidImage` case; the
`InvalidParameters` kind appears in the specification's error taxonomy and is
included so that claims about it can be stated, but no code path of
`detect_circles` produces it. -/
inductive DetectError where
  | InvalidImage : DetectError
  | InvalidParameters : DetectError
deriving DecidableEq, Repr

/-- The tuning parameters of one `detect_circles` call: `dp`, `minDist`,
`param1`, `param2` as passed to `cv.HoughCircles`, plus the detector's
`min_radius` / `max_radius` fields.  `dp` is a Python float, modelled as an
exact rational. -/
structure DetectParams where
  dp : ℚ
  minDist : Int
  param1 : Int
  param2 : Int
  minRadius : Int
  maxRadius : Int
deriving DecidableEq, Repr

/-- Model of `np.round` — IEEE round-half-to-even on an exact rational. -/
def npRound (q : ℚ) : Int :=
  let f := ⌊q⌋
  let d := q - f
  if d < 1 / 2 then f
  else if 1 / 2 < d then f + 1
  else if 2 ∣ f then f else f + 1

/-- Rounding of one raw Hough circle `(x, y, r)` (floats) to integers:
`np.round(circles[0, :]).astype("int")` (line 71). -/
def roundCircle (c : ℚ × ℚ × ℚ) : Circle :=
  (npRound c.1, npRound c.2.1, npRound c.2.2)

/-- Embedding of `CircleDetector.detect_circles` (lines 28-73).  The OpenCV primitives are
external library calls, passed in as functions: `gray` is
`cv.cvtColor(·, COLOR_BGR2GRAY)`, `blur` is `cv.medianBlur(·, 5)`, and
`hough` is `cv.HoughCircles(·, HOUGH_GRADIENT, params)`, returning `none`
when no circle is found and the raw float triples otherwise.  The `imread`
result is the `Option Image` input: `none` models every input whose buffer
`cv.imread` cannot decode (empty, unreadable, or degenerate), for which the
code raises `ValueError` (line 50).  Note the code performs no validation of
`params` whatsoever: whatever their values, they are handed to `hough`. -/
def detect_circles (gray : Image → GrayImage) (blur : GrayImage → GrayImage)
    (hough : GrayImage → DetectParams → Option (List (ℚ × ℚ × ℚ)))
    (imread : Option Image) (params : DetectParams) :
    Except DetectError (Option (List Circle)) :=
  match imread with
  | none => .error .InvalidImage
  | some image =>
    let g := blur (gray image)
    match hough g params with
    | some raw => .ok (some (raw.map roundCircle))
    | none => .ok none

/-! ## Annotator (`draw_circles`, lines 75-108) -/

/-- Model of `image.copy()` (line 91): a fresh buffer holding the same pixels.  In the
value semantics of the embedding a copy is the same image value; the point of
the copy in the reference is that the subsequent drawing never touches the
source buffer. -/
def copyImage (img : Image) : Image := img

/-- Embedding of `CircleDetector.draw_circles` (lines 75-108), its image computation only
(the optional `imwrite` is I/O).  The three OpenCV drawing primitives applied
per circle (outline `cv.circle`, centre dot `cv.circle`, label `cv.putText`,
lines 96-101) are rasterisation routines of the external library; they are
abstracted as one per-circle drawing step `drawOne`, folded over the circles
in sequence order starting from a copy of the original. -/
def draw_circles (drawOne : Image → Circle → Image)
    (img : Image) (circles : List Circle) : Image :=
  circles.foldl drawOne (copyImage img)

/-! ## Statistics summariser (`get_circle_info`, lines 158-183) -/

/-- Model of `np.mean` over the integer radii, exactly: sum divided by length. -/
def npMean (l : List Int) : ℚ := (l.sum : ℚ) / l.length

/-- Model of `np.min` of a (nonempty) integer array. -/
def npMin : List Int → Int
  | [] => 0
  | a :: t => t.foldl min a

/-- Model of `np.max` of a (nonempty) integer array. -/
def npMax : List Int → Int
  | [] => 0
  | a :: t => t.foldl max a

/-- The population variance: mean of squared deviations from the mean,
divided by `N` (not `N - 1`).  `np.std(radii)` is the nonnegative square
root of this value. -/
def npVar (l : List Int) : ℚ :=
  ((l.map (fun x => ((x : ℚ) - npMean l) ^ 2)).sum) / l.length

/-- The dictionary returned by `get_circle_info`.  In the zero-circle case
the Python dict holds only the key `"count"`; the optional fields model the
presence or absence of the remaining keys.  `std_radius_sq` carries the
square of the `"std_radius"` value (`np.std` is the square root of the
population variance; the square is kept exact and rational). -/
structure CircleInfo where
  count : Nat
  average_radius : Option ℚ := none
  min_radius : Option Int := none
  max_radius : Option Int := none
  std_radius_sq : Option ℚ := none
  circles : Option (List Circle) := none
deriving DecidableEq, Repr

/-- Embedding of `CircleDetector.get_circle_info` (lines 158-183): `{"count": 0}` when the
input is `None` or empty, otherwise count, mean / min / max of the radius
column, population standard deviation (kept as its square), and the
per-circle list of integer `(x, y, radius)` records in input order. -/
def get_circle_info (circles : Option (List Circle)) : CircleInfo :=
  match circles with
  | none => { count := 0 }
  | some cs =>
    if cs.length = 0 then { count := 0 }
    else
      let radii := cs.map (fun c => c.2.2)
      { count := cs.length
        average_radius := some (npMean radii)
        min_radius := some (npMin radii)
        max_radius := some (npMax radii)
        std_radius_sq := some (npVar radii)
        circles := some cs }


/-! ## Concrete instances used by counterexamples and witnesses -/

/-- A concrete stand-in for `cv.cvtColor`: every pixel maps to gray 0. -/
def cexGray : Image → GrayImage := fun img => ⟨img.h, img.w, fun _ _ => 0⟩

/-- A concrete stand-in for `cv.medianBlur`: the identity smoothing. -/
def cexBlur : GrayImage → GrayImage := id

/-- A concrete stand-in for `cv.HoughCircles` that finds no circle. -/
def cexHough : GrayImage → DetectParams → Option (List (ℚ × ℚ × ℚ)) :=
  fun _ _ => none

/-- A concrete readable 1×1 image. -/
def cexImage : Image := ⟨1, 1, fun _ _ => (0, 0, 0)⟩

/-- Parameters violating the spec invariant: `minRadius = 50 > 10 = maxRadius`
(with `dp = 1.2`, `minDist = 100`, `param1 = 50`, `param2 = 30`, the
defaults of `detect_circles`). -/
def cexBadParams : DetectParams := ⟨6 / 5, 100, 50, 30, 50, 10⟩

/-- A concrete 20×20 image with constant pixel value. -/
def cexImg20 : Image := ⟨20, 20, fun _ _ => (1, 2, 3)⟩

/-! ## Claims about the extractor -/

/-- C5: `extract_circles` returns one image per circle — the output length
equals the number of circles, the i-th output is computed from the i-th
circle by the per-circle masked crop (order-preserving), and an empty circle
list yields the empty sequence rather than an error. -/
theorem extract_length_order (img : Image) (circles : List Circle) :
    (extract_circles img circles).length = circles.length ∧
    (∀ i : Nat, (extract_circles img circles)[i]? =
      (circles[i]?).map (extractOne img)) ∧
    extract_circles img [] = [] := by
  refine ⟨List.length_map _ _, fun i => ?_, rfl⟩
  simp [extract_circles]

/-! ## Claims about the annotator -/

/-- C7: `draw_circles` on an empty circle list returns an image equal to the
original, and for any circle list the result is obtained by folding the
drawing primitive over a copy of the original — the source image value is
never the one drawn on. -/
theorem draw_circles_empty_id (drawOne : Image → Circle → Image)
    (img : Image) :
    draw_circles drawOne img [] = img ∧
    ∀ circles : List Circle,
      draw_circles drawOne img circles = circles.foldl drawOne (copyImage img) := by
  exact ⟨rfl, fun _ => rfl⟩

/-! ## Claims about the detector -/

/-- C8: when the image read fails (`cv.imread` yields `None` — the empty,
unreadable or degenerate buffer cases), `detect_circles` fails with the
invalid-image error for every choice of parameters and OpenCV primitives,
and no detection result is produced. -/
theorem detect_invalid_image (gray : Image → GrayImage)
    (blur : GrayImage → GrayImage)
    (hough : GrayImage → DetectParams → Option (List (ℚ × ℚ × ℚ)))
    (params : DetectParams) :
    detect_circles gray blur hough none params = .error .InvalidImage := rfl

/-- C9: detection is deterministic — two `detect_circles` runs over the same
OpenCV primitives, on identical decoded images and identical parameters,
produce identical results.  In the embedding each primitive is a function of
its inputs (the spec itself states the search is deterministic given fixed
input), so the whole pipeline is a pure function of image and parameters. -/
theorem detect_deterministic (gray : Image → GrayImage)
    (blur : GrayImage → GrayImage)
    (hough : GrayImage → DetectParams → Option (List (ℚ × ℚ × ℚ)))
    (i1 i2 : Option Image) (p1 p2 : DetectParams)
    (hi : i1 = i2) (hp : p1 = p2) :
    detect_circles gray blur hough i1 p1 = detect_circles gray blur hough i2 p2 := by
  rw [hi, hp]

/-- Witness for C9 at a concrete image and concrete parameters. -/
theorem detect_deterministic_witness :
    detect_circles cexGray cexBlur cexHough (some cexImage) cexBadParams =
      detect_circles cexGray cexBlur cexHough (some cexImage) cexBadParams :=
  detect_deterministic cexGray cexBlur cexHough (some cexImage) (some cexImage)
    cexBadParams cexBadParams rfl rfl

/-- C1 counterexample: with `minRadius = 50 > 10 = maxRadius` (and default
`dp`, `minDist`), `detect_circles` on a readable image does NOT fail with an
invalid-parameters error — it runs the search and returns its result.  The
code contains no parameter validation at all. -/
theorem detect_no_invalid_parameters_cex :
    detect_circles cexGray cexBlur cexHough (some cexImage) cexBadParams = .ok none ∧
    detect_circles cexGray cexBlur cexHough (some cexImage) cexBadParams ≠
      .error .InvalidParameters := by
  refine ⟨rfl, ?_⟩
  intro hcontra
  exact Except.noConfusion hcontra

/-- C1 amended: `detect_circles` performs no parameter validation.  For every
readable image and every parameter bundle — including `dp ≤ 0`,
`minDist ≤ 0` or `minRadius > maxRadius` — it never fails with the
invalid-parameters error; it always proceeds to the circle search and
returns its (possibly empty) result.  The only error it can raise is the
invalid-image error on an unreadable input. -/
theorem detect_no_param_validation (gray : Image → GrayImage)
    (blur : GrayImage → GrayImage)
    (hough : GrayImage → DetectParams → Option (List (ℚ × ℚ × ℚ)))
    (img : Image) (params : DetectParams) :
    detect_circles gray blur hough (some img) params ≠ .error .InvalidParameters ∧
    ∃ res : Option (List Circle),
      detect_circles gray blur hough (some img) params = .ok res := by
  rcases hh : hough (blur (gray img)) params with _ | raw
  · exact ⟨by simp [detect_circles, hh], none, by simp [detect_circles, hh]⟩
  · exact ⟨by simp [detect_circles, hh], some (raw.map roundCircle),
      by simp [detect_circles, hh]⟩

/-! ## Claims about the summariser -/

/-- C3: for a detection result with zero circles (`None` or an empty array),
`get_circle_info` returns a record whose count is `0` and in which every
other field is absent — no mean, min, max or standard deviation is
computed. -/
theorem summarize_empty (circles : Option (List Circle))
    (h : (circles.getD []).length = 0) :
    (get_circle_info circles).count = 0 ∧
    (get_circle_info circles).average_radius = none ∧
    (get_circle_info circles).min_radius = none ∧
    (get_circle_info circles).max_radius = none ∧
    (get_circle_info circles).std_radius_sq = none ∧
    (get_circle_info circles).circles = none := by
  cases circles with
  | none => exact ⟨rfl, rfl, rfl, rfl, rfl, rfl⟩
  | some cs =>
    cases cs with
    | nil => exact ⟨rfl, rfl, rfl, rfl, rfl, rfl⟩
    | cons c t => simp at h

/-- Witness for C3 at the concrete empty detection result. -/
theorem summarize_empty_witness :
    ((some ([] : List Circle)).getD []).length = 0 ∧
    (get_circle_info (some ([] : List Circle))).count = 0 :=
  ⟨by decide, (summarize_empty (some []) (by decide)).1⟩

/-! ## Slice arithmetic lemmas -/

/-- A slice endpoint already inside `[0, n]` is left unchanged by Python
slice normalisation. -/
theorem sliceIdx_of_nonneg_le {n : Nat} {i : Int} (h0 : 0 ≤ i) (hn : i ≤ (n : Int)) :
    sliceIdx n i = i.toNat := by
  unfold sliceIdx
  rw [if_neg (by omega)]
  omega

/-- Slice normalisation never exceeds the axis length. -/
theorem sliceIdx_le (n : Nat) (i : Int) : sliceIdx n i ≤ n := by
  unfold sliceIdx
  rcases lt_or_le i 0 with h | h
  · rw [if_pos h]; omega
  · rw [if_neg (by omega)]; omega

/-- Bitwise AND of a natural with itself. -/
theorem nat_land_self (n : Nat) : n &&& n = n :=
  Nat.eq_of_testBit_eq fun i => by rw [Nat.testBit_land, Bool.and_self]

/-! ## Crop dimension claims -/

/-- C2 counterexample: in a 20×20 image, the circle `(x, y, r) = (10, 10, 3)`
lies entirely within bounds (its box `[7, 13] × [7, 13]` is interior), yet
the extracted crop is 6×6 — `2r × 2r`, not `(2r+1) × (2r+1) = 7×7` — because
the numpy slice `image[y-r:y+r, x-r:x+r]` excludes its stop index. -/
theorem extract_crop_dims_cex :
    (extractOne cexImg20 (10, 10, 3)).h = 6 ∧
    (extractOne cexImg20 (10, 10, 3)).w = 6 ∧
    ¬((extractOne cexImg20 (10, 10, 3)).h = 7 ∧
      (extractOne cexImg20 (10, 10, 3)).w = 7) := by
  refine ⟨rfl, rfl, fun hc => ?_⟩
  have h6 : (extractOne cexImg20 (10, 10, 3)).h = 6 := rfl
  rw [hc.1] at h6
  exact absurd h6 (by decide)

/-- C2 amended: for every circle `(x, y, r)` with `r ≥ 0` whose bounding box
`[x-r, x+r] × [y-r, y+r]` lies entirely within the image bounds, the
extracted image has dimensions `2r × 2r` (the slice stop index `x+r` / `y+r`
is excluded); a circle whose box exceeds the bounds is clamped to the valid
pixel range without any error (the extraction is total — see the bound-safety
theorem for the clamped bounds). -/
theorem extract_crop_dims (img : Image) (x y r : Int) (hr : 0 ≤ r)
    (hx1 : 0 ≤ x - r) (hx2 : x + r ≤ (img.w : Int))
    (hy1 : 0 ≤ y - r) (hy2 : y + r ≤ (img.h : Int)) :
    (extractOne img (x, y, r)).h = (2 * r).toNat ∧
    (extractOne img (x, y, r)).w = (2 * r).toNat := by
  have hb : cropBounds img.h img.w x y r = (x - r, y - r, x + r, y + r) := by
    simp only [cropBounds, Prod.mk.injEq]
    refine ⟨by omega, by omega, by omega, by omega⟩
  have hsx1 : sliceIdx img.w (x - r) = (x - r).toNat :=
    sliceIdx_of_nonneg_le hx1 (by omega)
  have hsx2 : sliceIdx img.w (x + r) = (x + r).toNat :=
    sliceIdx_of_nonneg_le (by omega) hx2
  have hsy1 : sliceIdx img.h (y - r) = (y - r).toNat :=
    sliceIdx_of_nonneg_le hy1 (by omega)
  have hsy2 : sliceIdx img.h (y + r) = (y + r).toNat :=
    sliceIdx_of_nonneg_le (by omega) hy2
  constructor
  · show sliceIdx img.h (cropBounds img.h img.w x y r).2.2.2 -
      sliceIdx img.h (cropBounds img.h img.w x y r).2.1 = (2 * r).toNat
    rw [hb]
    show sliceIdx img.h (y + r) - sliceIdx img.h (y - r) = (2 * r).toNat
    rw [hsy2, hsy1]
    omega
  · show sliceIdx img.w (cropBounds img.h img.w x y r).2.2.1 -
      sliceIdx img.w (cropBounds img.h img.w x y r).1 = (2 * r).toNat
    rw [hb]
    show sliceIdx img.w (x + r) - sliceIdx img.w (x - r) = (2 * r).toNat
    rw [hsx2, hsx1]
    omega

/-- Witness for the amended C2 at the concrete interior circle `(10, 10, 3)`
of the 20×20 image: the crop is `(2·3) × (2·3) = 6 × 6`. -/
theorem extract_crop_dims_witness :
    (0 : Int) ≤ 3 ∧ (0 : Int) ≤ 10 - 3 ∧ (10 + 3 : Int) ≤ (cexImg20.w : Int) ∧
    (extractOne cexImg20 (10, 10, 3)).h = (2 * (3 : Int)).toNat ∧
    (extractOne cexImg20 (10, 10, 3)).w = (2 * (3 : Int)).toNat :=
  ⟨by decide, by decide, by decide,
    extract_crop_dims cexImg20 10 10 3 (by decide) (by decide) (by decide)
      (by decide) (by decide)⟩

/-- C10: for every circle with nonnegative radius whose centre lies inside
the image, the clamped bounds `(x1, y1, x2, y2)` of `extract_circles`
satisfy `0 ≤ x1 ≤ x2 ≤ width` and `0 ≤ y1 ≤ y2 ≤ height`, and every source
pixel read performed while cropping — row `y1 + j`, column `x1 + i` for a
position `(j, i)` of the crop — stays strictly inside the source buffer. -/
theorem crop_bounds_safe (img : Image) (x y r : Int)
    (hx0 : 0 ≤ x) (hxw : x < (img.w : Int))
    (hy0 : 0 ≤ y) (hyh : y < (img.h : Int)) (hr : 0 ≤ r) :
    (0 ≤ (cropBounds img.h img.w x y r).1 ∧
     (cropBounds img.h img.w x y r).1 ≤ (cropBounds img.h img.w x y r).2.2.1 ∧
     (cropBounds img.h img.w x y r).2.2.1 ≤ (img.w : Int) ∧
     0 ≤ (cropBounds img.h img.w x y r).2.1 ∧
     (cropBounds img.h img.w x y r).2.1 ≤ (cropBounds img.h img.w x y r).2.2.2 ∧
     (cropBounds img.h img.w x y r).2.2.2 ≤ (img.h : Int)) ∧
    ∀ j i : Nat,
      j < (extractOne img (x, y, r)).h → i < (extractOne img (x, y, r)).w →
      sliceIdx img.h (cropBounds img.h img.w x y r).2.1 + j < img.h ∧
      sliceIdx img.w (cropBounds img.h img.w x y r).1 + i < img.w := by
  constructor
  · simp only [cropBounds]
    refine ⟨by omega, by omega, by omega, by omega, by omega, by omega⟩
  · intro j i hj hi
    have hj2 : j < sliceIdx img.h (cropBounds img.h img.w x y r).2.2.2 -
        sliceIdx img.h (cropBounds img.h img.w x y r).2.1 := hj
    have hi2 : i < sliceIdx img.w (cropBounds img.h img.w x y r).2.2.1 -
        sliceIdx img.w (cropBounds img.h img.w x y r).1 := hi
    have h1 := sliceIdx_le img.h (cropBounds img.h img.w x y r).2.2.2
    have h2 := sliceIdx_le img.w (cropBounds img.h img.w x y r).2.2.1
    omega

/-- Witness for C10 at the concrete circle `(10, 10, 3)` in the 20×20
image. -/
theorem crop_bounds_safe_witness :
    (0 : Int) ≤ 10 ∧ (10 : Int) < (cexImg20.w : Int) ∧ (0 : Int) ≤ 3 ∧
    (0 ≤ (cropBounds cexImg20.h cexImg20.w 10 10 3).1 ∧
     (cropBounds cexImg20.h cexImg20.w 10 10 3).1 ≤
       (cropBounds cexImg20.h cexImg20.w 10 10 3).2.2.1 ∧
     (cropBounds cexImg20.h cexImg20.w 10 10 3).2.2.1 ≤ (cexImg20.w : Int) ∧
     0 ≤ (cropBounds cexImg20.h cexImg20.w 10 10 3).2.1 ∧
     (cropBounds cexImg20.h cexImg20.w 10 10 3).2.1 ≤
       (cropBounds cexImg20.h cexImg20.w 10 10 3).2.2.2 ∧
     (cropBounds cexImg20.h cexImg20.w 10 10 3).2.2.2 ≤ (cexImg20.h : Int)) ∧
    ∀ j i : Nat,
      j < (extractOne cexImg20 (10, 10, 3)).h →
      i < (extractOne cexImg20 (10, 10, 3)).w →
      sliceIdx cexImg20.h (cropBounds cexImg20.h cexImg20.w 10 10 3).2.1 + j <
        cexImg20.h ∧
      sliceIdx cexImg20.w (cropBounds cexImg20.h cexImg20.w 10 10 3).1 + i <
        cexImg20.w :=
  ⟨by decide, by decide, by decide,
    crop_bounds_safe cexImg20 10 10 3 (by decide) (by decide) (by decide)
      (by decide) (by decide)⟩

/-! ## Masked-pixel claim -/

/-- C6: for every circle `(x, y, r)` with `r ≥ 0` and centre within the
image axes, and every position `(j, i)` of the extracted image, the output
pixel equals the source pixel at row `y1 + j`, column `x1 + i` (the crop
offsets) whenever the disc mask is set there, and equals black `(0, 0, 0)`
otherwise — the channel-wise bitwise AND of the image with itself under the
mask, as computed by `cv.bitwise_and(cropped, cropped, mask)`. -/
theorem extract_masked_pixels (img : Image) (x y r : Int) (hr : 0 ≤ r)
    (hxw : x ≤ (img.w : Int)) (hyh : y ≤ (img.h : Int)) :
    ∀ j i : Nat,
      (extractOne img (x, y, r)).pix j i =
        if ((((max 0 (x - r)).toNat + i : Nat) : Int) - x) ^ 2 +
            ((((max 0 (y - r)).toNat + j : Nat) : Int) - y) ^ 2 ≤ r ^ 2 then
          img.pix ((max 0 (y - r)).toNat + j) ((max 0 (x - r)).toNat + i)
        else (0, 0, 0) := by
  intro j i
  have hys : sliceIdx img.h (max 0 (y - r)) = (max 0 (y - r)).toNat :=
    sliceIdx_of_nonneg_le (le_max_left 0 _) (by omega)
  have hxs : sliceIdx img.w (max 0 (x - r)) = (max 0 (x - r)).toNat :=
    sliceIdx_of_nonneg_le (le_max_left 0 _) (by omega)
  simp only [extractOne, bitwiseAnd, cropImage, cropGray, cropBounds, mkMask]
  rw [hys, hxs]
  by_cases hP : ((((max 0 (x - r)).toNat + i : Nat) : Int) - x) ^ 2 +
      ((((max 0 (y - r)).toNat + j : Nat) : Int) - y) ^ 2 ≤ r ^ 2
  · rw [if_pos hP, if_pos hP]
    rw [if_pos (by decide : (255 : Nat) ≠ 0)]
    simp [nat_land_self]
  · rw [if_neg hP, if_neg hP]
    rw [if_neg (by simp : ¬((0 : Nat) ≠ 0))]

/-- Witness for C6 at the circle `(10, 10, 3)` of the 20×20 image, output
position `(3, 3)` (the disc centre, where the mask is set). -/
theorem extract_masked_pixels_witness :
    (0 : Int) ≤ 3 ∧ (10 : Int) ≤ (cexImg20.w : Int) ∧
    (10 : Int) ≤ (cexImg20.h : Int) ∧
    (extractOne cexImg20 (10, 10, 3)).pix 3 3 =
      (if ((((max 0 ((10 : Int) - 3)).toNat + 3 : Nat) : Int) - 10) ^ 2 +
          ((((max 0 ((10 : Int) - 3)).toNat + 3 : Nat) : Int) - 10) ^ 2 ≤
            (3 : Int) ^ 2 then
        cexImg20.pix ((max 0 ((10 : Int) - 3)).toNat + 3)
          ((max 0 ((10 : Int) - 3)).toNat + 3)
      else (0, 0, 0)) :=
  ⟨by decide, by decide, by decide,
    extract_masked_pixels cexImg20 10 10 3 (by decide) (by decide) (by decide) 3 3⟩

/-! ## Order and mean lemmas for the radius statistics -/

/-- Folding `min` over a list never exceeds the accumulator. -/
theorem foldl_min_le_self (l : List Int) (a : Int) : l.foldl min a ≤ a := by
  induction l generalizing a with
  | nil => exact le_refl a
  | cons b t ih =>
    rw [List.foldl_cons]
    exact le_trans (ih (min a b)) (min_le_left a b)

/-- Folding `min` over a list bounds every member from below. -/
theorem foldl_min_le_mem {l : List Int} {x : Int} (hx : x ∈ l) (a : Int) :
    l.foldl min a ≤ x := by
  induction l generalizing a with
  | nil => cases hx
  | cons b t ih =>
    rw [List.foldl_cons]
    rcases List.mem_cons.mp hx with h | h
    · subst h
      exact le_trans (foldl_min_le_self t (min a x)) (min_le_right a x)
    · exact ih h (min a b)

/-- Model of `np.min`: the minimum bounds every array element from below. -/
theorem npMin_le {l : List Int} (x : Int) (hx : x ∈ l) : npMin l ≤ x := by
  cases l with
  | nil => cases hx
  | cons a t =>
    show t.foldl min a ≤ x
    rcases List.mem_cons.mp hx with h | h
    · subst h; exact foldl_min_le_self t x
    · exact foldl_min_le_mem h a

/-- Folding `max` over a list dominates the accumulator. -/
theorem le_foldl_max_self (l : List Int) (a : Int) : a ≤ l.foldl max a := by
  induction l generalizing a with
  | nil => exact le_refl a
  | cons b t ih =>
    rw [List.foldl_cons]
    exact le_trans (le_max_left a b) (ih (max a b))

/-- Folding `max` over a list dominates every member. -/
theorem le_foldl_max_mem {l : List Int} {x : Int} (hx : x ∈ l) (a : Int) :
    x ≤ l.foldl max a := by
  induction l generalizing a with
  | nil => cases hx
  | cons b t ih =>
    rw [List.foldl_cons]
    rcases List.mem_cons.mp hx with h | h
    · subst h
      exact le_trans (le_max_right a x) (le_foldl_max_self t (max a x))
    · exact ih h (max a b)

/-- Model of `np.max`: the maximum dominates every array element. -/
theorem le_npMax {l : List Int} (x : Int) (hx : x ∈ l) : x ≤ npMax l := by
  cases l with
  | nil => cases hx
  | cons a t =>
    show x ≤ t.foldl max a
    rcases List.mem_cons.mp hx with h | h
    · subst h; exact le_foldl_max_self t x
    · exact le_foldl_max_mem h a

/-- A uniform lower bound on the members bounds the sum from below. -/
theorem mul_length_le_sum (l : List Int) (m : Int) (h : ∀ x ∈ l, m ≤ x) :
    m * l.length ≤ l.sum := by
  induction l with
  | nil => simp
  | cons a t ih =>
    have ha := h a (List.mem_cons_self a t)
    have ht := ih fun x hx => h x (List.mem_cons_of_mem a hx)
    simp only [List.sum_cons, List.length_cons]
    have hexp : m * ((t.length : Int) + 1) = m * t.length + m := by ring
    push_cast
    rw [hexp]
    omega

/-- A uniform upper bound on the members bounds the sum from above. -/
theorem sum_le_mul_length (l : List Int) (M : Int) (h : ∀ x ∈ l, x ≤ M) :
    l.sum ≤ M * l.length := by
  induction l with
  | nil => simp
  | cons a t ih =>
    have ha := h a (List.mem_cons_self a t)
    have ht := ih fun x hx => h x (List.mem_cons_of_mem a hx)
    simp only [List.sum_cons, List.length_cons]
    have hexp : M * ((t.length : Int) + 1) = M * t.length + M := by ring
    push_cast
    rw [hexp]
    omega

/-- On a nonempty array, `np.min` is at most `np.mean`. -/
theorem npMin_le_npMean {l : List Int} (h : l ≠ []) : (npMin l : ℚ) ≤ npMean l := by
  have hlen : 0 < (l.length : ℚ) := by
    have : 0 < l.length := List.length_pos.mpr h
    exact_mod_cast this
  rw [npMean, le_div_iff₀ hlen]
  have hint := mul_length_le_sum l (npMin l) fun x hx => npMin_le x hx
  exact_mod_cast hint

/-- On a nonempty array, `np.mean` is at most `np.max`. -/
theorem npMean_le_npMax {l : List Int} (h : l ≠ []) : npMean l ≤ (npMax l : ℚ) := by
  have hlen : 0 < (l.length : ℚ) := by
    have : 0 < l.length := List.length_pos.mpr h
    exact_mod_cast this
  rw [npMean, div_le_iff₀ hlen]
  have hint := sum_le_mul_length l (npMax l) fun x hx => le_npMax x hx
  exact_mod_cast hint

/-- The population variance is nonnegative. -/
theorem npVar_nonneg (l : List Int) : 0 ≤ npVar l := by
  apply div_nonneg
  · apply List.sum_nonneg
    intro q hq
    rcases List.mem_map.mp hq with ⟨x, _, rfl⟩
    positivity
  · exact_mod_cast Nat.zero_le l.length

/-- The population variance times `N` recovers the squared-deviation sum
(the division is by `N`, not `N - 1`). -/
theorem npVar_mul_length {l : List Int} (h : l ≠ []) :
    npVar l * l.length = ((l.map fun x => ((x : ℚ) - npMean l) ^ 2).sum) := by
  have hpos : 0 < l.length := List.length_pos.mpr h
  have hlen : (l.length : ℚ) ≠ 0 := by
    have hq : (0 : ℚ) < l.length := by exact_mod_cast hpos
    exact ne_of_gt hq
  exact div_mul_cancel₀ _ hlen

/-- A concrete nonempty detection result: two circles with radii 3 and 7. -/
def cexCircles : List Circle := [(1, 2, 3), (4, 5, 7)]

/-- C4: for every detection result with at least one circle, the summary has
count, mean, min, max, variance and per-circle list computed from the radius
column; the minimum radius is at most the mean and the mean at most the
maximum; the variance — whose nonnegative square root is `np.std` — is
nonnegative, and multiplying it by `N` recovers the squared-deviation sum
(population standard deviation: division by `N`, not `N - 1`); the mean is
an exact rational (float in the code), min and max stay integers, and the
per-circle list preserves the input order with integer `x`, `y`, radius. -/
theorem summarize_stats (cs : List Circle) (h : cs ≠ []) :
    let radii := cs.map fun c => c.2.2
    (get_circle_info (some cs)).count = cs.length ∧
    (get_circle_info (some cs)).average_radius = some (npMean radii) ∧
    (get_circle_info (some cs)).min_radius = some (npMin radii) ∧
    (get_circle_info (some cs)).max_radius = some (npMax radii) ∧
    (get_circle_info (some cs)).std_radius_sq = some (npVar radii) ∧
    (get_circle_info (some cs)).circles = some cs ∧
    ((npMin radii : ℚ) ≤ npMean radii ∧ npMean radii ≤ (npMax radii : ℚ)) ∧
    0 ≤ npVar radii ∧
    0 ≤ Real.sqrt ((npVar radii : ℚ) : ℝ) ∧
    npVar radii * radii.length =
      (radii.map fun x => ((x : ℚ) - npMean radii) ^ 2).sum := by
  intro radii
  have hlen : ¬(cs.length = 0) := by simpa using h
  have hradii : radii ≠ [] := by
    simp only [radii, ne_eq, List.map_eq_nil_iff]
    exact h
  refine ⟨?_, ?_, ?_, ?_, ?_, ?_,
    ⟨npMin_le_npMean hradii, npMean_le_npMax hradii⟩,
    npVar_nonneg radii, Real.sqrt_nonneg _, npVar_mul_length hradii⟩
  all_goals simp [get_circle_info, hlen]

/-- Witness for C4 at the concrete two-circle result (radii 3 and 7). -/
theorem summarize_stats_witness :
    cexCircles ≠ [] ∧
    (let radii := cexCircles.map fun c => c.2.2
     (get_circle_info (some cexCircles)).count = cexCircles.length ∧
     (get_circle_info (some cexCircles)).average_radius = some (npMean radii) ∧
     (get_circle_info (some cexCircles)).min_radius = some (npMin radii) ∧
     (get_circle_info (some cexCircles)).max_radius = some (npMax radii) ∧
     (get_circle_info (some cexCircles)).std_radius_sq = some (npVar radii) ∧
     (get_circle_info (some cexCircles)).circles = some cexCircles ∧
     ((npMin radii : ℚ) ≤ npMean radii ∧ npMean radii ≤ (npMax radii : ℚ)) ∧
     0 ≤ npVar radii ∧
     0 ≤ Real.sqrt ((npVar radii : ℚ) : ℝ) ∧
     npVar radii * radii.length =
       (radii.map fun x => ((x : ℚ) - npMean radii) ^ 2).sum) :=
  ⟨by decide, summarize_stats cexCircles (by decide)⟩

end CircleDetect
